import Mathlib

/-!
A shallow embedding of `lukeulrich/sequelize-model-loader` (`src/index.js`).

The repository is a single synchronous loader: it lists a directory, keeps the
file names ending in `.model.js` in sorted order, invokes each file's exported
function with the registry built so far, derives a default table name and
merges default parameters, registers the model with the ORM and returns the
registry. `src/index.js` contains two consecutive versions of the exported
function; the second adds attachment of `classMethods` / `instanceMethods`.
Both are embedded below (`loadModelsV1`, `loadModelsV2`).

JavaScript values that the loader inspects (parameter objects, truthiness) are
embedded as the inductive `JsVal`; vendor collaborators that are not part of
the repository (`inflection.underscore`, `inflection.pluralize`,
`lodash.defaultsdeep`, the sequelize engine) are modelled from the spec's
description of them, each marked in its doc comment.

String manipulation is carried out on `List Char` with structural recursion so
that every definition evaluates inside the kernel on concrete inputs.
-/

/-- `s.endsWith suffix` of JavaScript strings, computed structurally. -/
def strEndsWith (s suffix : String) : Bool :=
  s.data.reverse.take suffix.data.length == suffix.data.reverse

/-- Drop the last `n` characters of a string (used to strip a file suffix). -/
def strDropRight (s : String) (n : Nat) : String :=
  String.mk (s.data.take (s.data.length - n))

/-- `split(sep)` of JavaScript strings for a one-character separator:
`"" → [""]`, separators at the edges produce empty segments. -/
def splitChar (sep : Char) : List Char → List (List Char)
  | [] => [[]]
  | c :: cs =>
      let r := splitChar sep cs
      if c = sep then [] :: r
      else
        match r with
        | [] => [[c]]
        | g :: gs => (c :: g) :: gs

/-- `join(sep)` of JavaScript arrays of strings, one-character separator. -/
def joinChar (sep : Char) : List (List Char) → List Char
  | [] => []
  | [g] => g
  | g :: gs => g ++ sep :: joinChar sep gs

/-- `modelName.split('_')` as the loader uses it. -/
def strSplitUnderscore (s : String) : List String :=
  (splitChar '_' s.data).map String.mk

/-- `segments.join('_')` as the loader uses it. -/
def strJoinUnderscore (l : List String) : String :=
  String.mk (joinChar '_' (l.map String.data))

/-- Lexicographic comparison of strings by character code, the order
JavaScript's `Array.prototype.sort` applies to string arrays. -/
def lexLe (a b : String) : Bool :=
  lexLeChars a.data b.data
where
  lexLeChars : List Char → List Char → Bool
    | [], _ => true
    | _ :: _, [] => false
    | a :: as, b :: bs => if a < b then true else if a = b then lexLeChars as bs else false

/-- A JavaScript value, as far as the loader inspects values: primitives and
plain objects (an object is a key-ordered association list of fields). -/
inductive JsVal where
  | undefined : JsVal
  | null : JsVal
  | bool : Bool → JsVal
  | num : Int → JsVal
  | str : String → JsVal
  | obj : List (String × JsVal) → JsVal
deriving Repr

mutual

/-- Boolean equality on `JsVal` (the derived instance is unavailable for a
nested inductive, so it is written out and proved lawful below). -/
def JsVal.beq : JsVal → JsVal → Bool
  | .undefined, .undefined => true
  | .null, .null => true
  | .bool a, .bool b => a == b
  | .num a, .num b => a == b
  | .str a, .str b => a == b
  | .obj a, .obj b => JsVal.beqFields a b
  | _, _ => false

/-- Boolean equality on `JsVal` object field lists. -/
def JsVal.beqFields : List (String × JsVal) → List (String × JsVal) → Bool
  | [], [] => true
  | (k, v) :: r, (k2, v2) :: r2 => k == k2 && JsVal.beq v v2 && JsVal.beqFields r r2
  | _, _ => false

end

mutual

theorem JsVal.beq_iff : ∀ (a b : JsVal), JsVal.beq a b = true ↔ a = b
  | .undefined, b => by cases b <;> simp [JsVal.beq]
  | .null, b => by cases b <;> simp [JsVal.beq]
  | .bool x, b => by cases b <;> simp [JsVal.beq]
  | .num x, b => by cases b <;> simp [JsVal.beq]
  | .str x, b => by cases b <;> simp [JsVal.beq]
  | .obj fs, b => by
      cases b <;> simp [JsVal.beq]
      exact JsVal.beqFields_iff fs _

theorem JsVal.beqFields_iff :
    ∀ (a b : List (String × JsVal)), JsVal.beqFields a b = true ↔ a = b
  | [], b => by cases b <;> simp [JsVal.beqFields]
  | (k, v) :: r, [] => by simp [JsVal.beqFields]
  | (k, v) :: r, (k2, v2) :: r2 => by
      simp [JsVal.beqFields, JsVal.beq_iff v v2, JsVal.beqFields_iff r r2, and_assoc]

end

instance : DecidableEq JsVal := fun a b => decidable_of_iff _ (JsVal.beq_iff a b)

/-- JavaScript truthiness: `undefined`, `null`, `false`, `0` and `""` are
falsy; every object is truthy. -/
def JsVal.truthy : JsVal → Bool
  | .undefined => false
  | .null => false
  | .bool b => b
  | .num n => n != 0
  | .str s => s != ""
  | .obj _ => true

/-- Whether the value is an object (lodash `isObject` restricted to the value
shapes the loader can meet). -/
def JsVal.isObj : JsVal → Bool
  | .obj _ => true
  | _ => false

/-- Assignment `l[k] = v` on a JavaScript object's field list: an existing key
keeps its position and gets the new value, a new key is appended. -/
def assocSet {α : Type} : List (String × α) → String → α → List (String × α)
  | [], k, v => [(k, v)]
  | (k2, v2) :: rest, k, v =>
      if k2 = k then (k, v) :: rest else (k2, v2) :: assocSet rest k v

/-- Field lookup on an association list. -/
def assocGet {α : Type} (l : List (String × α)) (k : String) : Option α :=
  (l.find? (fun p => p.1 = k)).map (fun p => p.2)

/-- Property read `v[k]`: `undefined` when the key is absent or the value is
not an object. -/
def JsVal.getField : JsVal → String → JsVal
  | .obj fs, k => (assocGet fs k).getD .undefined
  | _, _ => .undefined

/-- Property write `v[k] = x`; a no-op on non-objects (never exercised by the
loader on a non-object). -/
def JsVal.setField : JsVal → String → JsVal → JsVal
  | .obj fs, k, x => .obj (assocSet fs k x)
  | v, _, _ => v

mutual

/-- Modelled from the spec: vendor `lodash.defaultsdeep` (not in `src/`) —
"recursively merge the default into it WITHOUT overwriting any key the
definition already set (deep-merge-defaults semantics: existing values always
win, at any nesting depth)".  For each key of the source: a target key that is
absent or `undefined` receives the source value; when both sides hold objects
they are merged recursively; otherwise the target value stays. -/
def defaultsDeep : JsVal → JsVal → JsVal
  | .obj t, .obj s => .obj (defaultsDeepFields t s)
  | t, _ => t

/-- The per-field walk of `defaultsDeep` over the source object's fields. -/
def defaultsDeepFields (t : List (String × JsVal)) :
    List (String × JsVal) → List (String × JsVal)
  | [] => t
  | (k, sv) :: rest =>
      let tv := (assocGet t k).getD .undefined
      let t2 :=
        if tv = .undefined then assocSet t k sv
        else if tv.isObj && sv.isObj then assocSet t k (defaultsDeep tv sv)
        else t
      defaultsDeepFields t2 rest

end

/-- Modelled from the spec: vendor `inflection.underscore` (not in `src/`) —
the underscore-casing step of the table-name derivation: every uppercase
letter becomes an underscore followed by its lowercase form, one leading
underscore so produced is dropped, and the result is lowercase. -/
def underscore (s : String) : String :=
  let t := s.data.foldr
    (fun c acc => (if c.isUpper then ['_', c.toLower] else [c.toLower]) ++ acc) []
  String.mk (match t with
    | '_' :: rest => rest
    | other => other)

/-- Modelled from the spec: vendor `inflection.pluralize` (not in `src/`) —
per-segment pluralization: sibilant endings take "es", a consonant followed by
"y" becomes "ies", and regular nouns (such as "user", "account") take a
trailing "s". -/
def pluralize (w : String) : String :=
  if strEndsWith w "s" || strEndsWith w "x" || strEndsWith w "z"
      || strEndsWith w "ch" || strEndsWith w "sh" then
    w ++ "es"
  else if strEndsWith w "y"
      && !(strEndsWith w "ay" || strEndsWith w "ey" || strEndsWith w "oy"
            || strEndsWith w "uy") then
    strDropRight w 1 ++ "ies"
  else
    w ++ "s"

/-- `defaultTableName` (src/index.js:178-183): underscore-case the model name,
split on `_`, pluralize each segment independently, rejoin with `_`. -/
def defaultTableName (modelName : String) : String :=
  strJoinUnderscore ((strSplitUnderscore (underscore modelName)).map pluralize)

example : underscore "UserAccount" = "user_account" := by decide
example : defaultTableName "UserAccount" = "users_accounts" := by decide
example : defaultsDeep (.obj [("tableName", .str "custom")])
    (.obj [("tableName", .str "users")]) = .obj [("tableName", .str "custom")] := by decide

/-- `kModelFileNameSuffix` (src/index.js:12,99): all files ending with this
are treated as models. -/
def kModelFileNameSuffix : String := ".model.js"

/-- A model definition as a model file returns it (the model-file contract):
an optional explicit `name`, the `fields` map (passed through untouched), the
`params` value (`undefined` when the file set none) and optional class-level and
instance-level method maps.  Functions are opaque values, identified by a
number. -/
structure ModelDefinition where
  name : Option String := none
  fields : List (String × JsVal) := []
  params : JsVal := .undefined
  classMethods : Option (List (String × Nat)) := none
  instanceMethods : Option (List (String × Nat)) := none
deriving Repr, DecidableEq

/-- Modelled from the spec: the model object the vendor ORM's define operation
returns (sequelize, not in `src/`): it carries the model's name, its attribute
set (the declared fields plus the engine's default `id` primary-key attribute),
the resolved table name and schema, and mutable slots the loader writes:
class-level properties, instance-prototype properties and the attached
definition. -/
structure Model where
  modelName : String
  attributes : List String
  tableName : String
  schema : JsVal
  classProps : List (String × Nat) := []
  protoProps : List (String × Nat) := []
  definition : Option ModelDefinition := none
deriving Repr, DecidableEq

/-- The registry built over one load pass: model name to registered model,
in JavaScript object key order. -/
abbrev Registry := List (String × Model)

/-- One observable call the loader makes on its collaborators: invoking a
model file (with the registry accumulated so far), defining a model on the
ORM, removing an attribute, attaching a class or instance method, and logging. -/
inductive Event where
  | invoke (fileName : String) (models : Registry)
  | define (modelName : String) (fields : List (String × JsVal)) (params : JsVal)
  | removeAttr (modelName : String) (attr : String)
  | attachClass (modelName : String) (methodName : String) (fn : Nat)
  | attachInstance (modelName : String) (methodName : String) (fn : Nat)
  | logInfo (modelName : String) (table : String)
deriving Repr, DecidableEq

/-- The outcome of one loader call: the registry, or the thrown error's
message. -/
inductive LoadResult where
  | ok (models : Registry)
  | error (msg : String)
deriving Repr, DecidableEq

/-- The loader's options argument: `schema` (fallback schema value), `logger`
(whether a logger was supplied) and `context` (opaque, forwarded verbatim). -/
structure Options where
  schema : JsVal := .undefined
  logger : Bool := false
  context : JsVal := .undefined

/-- What a model file exports: a function of the registry built so far and
the context (the sequelize type namespace is opaque and omitted), returning a
definition object, or `none` for a falsy return value. -/
abbrev ModelFileFn := Registry → JsVal → Option ModelDefinition

/-- `nameFromFileName` (src/index.js:163-165): the file's base name with the
model suffix stripped. -/
def nameFromFileName (modelFileName : String) : String :=
  if strEndsWith modelFileName kModelFileNameSuffix then
    strDropRight modelFileName kModelFileNameSuffix.data.length
  else
    modelFileName

/-- `nameForDefinition` (src/index.js:159-161): an explicit `name` field wins,
else the name derived from the file name. -/
def nameForDefinition (d : ModelDefinition) (modelFileName : String) : String :=
  match d.name with
  | some n => n
  | none => nameFromFileName modelFileName

/-- `setupDefinition` (src/index.js:167-176): a falsy `params` is replaced by
a fresh object holding only the default table name; otherwise the default is
deep-merged into `params` without overwriting existing keys. -/
def setupDefinition (d : ModelDefinition) (modelName : String) : ModelDefinition :=
  let defaultParams : JsVal := .obj [("tableName", .str (defaultTableName modelName))]
  if !d.params.truthy then
    { d with params := defaultParams }
  else
    { d with params := defaultsDeep d.params defaultParams }

/-- The global-schema fallback (src/index.js:124-125): when `params.schema` is
falsy and the loader's `schema` option is truthy, assign the option. -/
def applyGlobalSchema (params optSchema : JsVal) : JsVal :=
  if !(params.getField "schema").truthy && optSchema.truthy then
    params.setField "schema" optSchema
  else
    params

/-- Modelled from the spec: the vendor ORM's define operation (sequelize, not
in `src/`): it registers a model under the given name with the declared field
attributes plus the engine's default `id` primary-key attribute, and records
the resolved table name and schema from the parameters. -/
def ormDefine (modelName : String) (fields : List (String × JsVal)) (params : JsVal) :
    Model :=
  { modelName := modelName
    attributes :=
      (fields.map Prod.fst) ++
        (if (fields.map Prod.fst).contains "id" then [] else ["id"])
    tableName :=
      match params.getField "tableName" with
      | .str s => s
      | _ => ""
    schema := params.getField "schema" }

/-- Modelled from the spec: `model.removeAttribute(attr)` on the vendor ORM's
model object (not in `src/`): the attribute is removed from the model. -/
def Model.removeAttr (m : Model) (attr : String) : Model :=
  { m with attributes := m.attributes.filter (fun a => a ≠ attr) }

/-- `getModelFileNames` (src/index.js:153-157): the directory listing filtered
to names ending in the model suffix, sorted lexicographically. -/
def fileLe (a b : String) : Prop := lexLe a b = true

instance : DecidableRel fileLe := fun a b => by unfold fileLe; infer_instance

def getModelFileNames (files : List String) : List String :=
  List.insertionSort fileLe (files.filter (fun f => strEndsWith f kModelFileNameSuffix))

/-- The definition after the loader's per-file mutations of `params`
(src/index.js:122-125): defaults merged by `setupDefinition`, then the global
schema fallback applied. -/
def resolvedDefinition (d0 : ModelDefinition) (fileName : String) (opts : Options) :
    ModelDefinition :=
  let d1 := setupDefinition d0 (nameForDefinition d0 fileName)
  { d1 with params := applyGlobalSchema d1.params opts.schema }

/-- The model the ORM's define operation returns, before the loader's
post-define mutations (src/index.js:127). -/
def definedModel (d0 : ModelDefinition) (fileName : String) (opts : Options) : Model :=
  let d2 := resolvedDefinition d0 fileName opts
  ormDefine (nameForDefinition d0 fileName) d2.fields d2.params

/-- The model after the optional primary-key removal (src/index.js:129-130). -/
def modelAfterPk (d0 : ModelDefinition) (fileName : String) (opts : Options) : Model :=
  if ((resolvedDefinition d0 fileName opts).params.getField "noPrimaryKey").truthy then
    (definedModel d0 fileName opts).removeAttr "id"
  else
    definedModel d0 fileName opts

/-- The model as the second loader registers it (src/index.js:127-144):
class and instance methods attached by name, the resolved definition stored
on the model. -/
def registeredModelV2 (d0 : ModelDefinition) (fileName : String) (opts : Options) :
    Model :=
  let d2 := resolvedDefinition d0 fileName opts
  let m1 := modelAfterPk d0 fileName opts
  { m1 with
    classProps := (d2.classMethods.getD []).foldl
      (fun acc (p : String × Nat) => assocSet acc p.1 p.2) m1.classProps
    protoProps := (d2.instanceMethods.getD []).foldl
      (fun acc (p : String × Nat) => assocSet acc p.1 p.2) m1.protoProps
    definition := some d2 }

/-- The model as the first loader registers it (src/index.js:40-47): no
method attachment, only the resolved definition stored on the model. -/
def registeredModelV1 (d0 : ModelDefinition) (fileName : String) (opts : Options) :
    Model :=
  { modelAfterPk d0 fileName opts with definition := some (resolvedDefinition d0 fileName opts) }

/-- The calls one iteration of the second loader makes once the model file
returned a definition (src/index.js:117-147). -/
def stepEventsV2 (d0 : ModelDefinition) (fileName : String) (opts : Options)
    (models : Registry) : List Event :=
  let modelName := nameForDefinition d0 fileName
  let d2 := resolvedDefinition d0 fileName opts
  [.invoke fileName models, .define modelName d2.fields d2.params]
    ++ (if (d2.params.getField "noPrimaryKey").truthy then
          [.removeAttr modelName "id"] else [])
    ++ (d2.classMethods.getD []).map (fun p => .attachClass modelName p.1 p.2)
    ++ (d2.instanceMethods.getD []).map (fun p => .attachInstance modelName p.1 p.2)
    ++ (if opts.logger then
          [.logInfo modelName (registeredModelV2 d0 fileName opts).tableName] else [])

/-- The calls one iteration of the first loader makes once the model file
returned a definition (src/index.js:30-50). -/
def stepEventsV1 (d0 : ModelDefinition) (fileName : String) (opts : Options)
    (models : Registry) : List Event :=
  let modelName := nameForDefinition d0 fileName
  let d2 := resolvedDefinition d0 fileName opts
  [.invoke fileName models, .define modelName d2.fields d2.params]
    ++ (if (d2.params.getField "noPrimaryKey").truthy then
          [.removeAttr modelName "id"] else [])
    ++ (if opts.logger then
          [.logInfo modelName (registeredModelV1 d0 fileName opts).tableName] else [])

/-- One iteration of the second loader's `forEach` body (src/index.js:114-148):
invoke the file, fail on a falsy return, resolve the name, default the
parameters, apply the global schema fallback, define the model, remove the
primary key when requested, attach class and instance methods, attach the
definition, log.  Returns the calls made and either the grown registry or the
thrown error's message. -/
def processFileV2 (load : String → ModelFileFn) (opts : Options) (models : Registry)
    (fileName : String) : List Event × LoadResult :=
  match load fileName models opts.context with
  | none =>
      ([.invoke fileName models],
        .error ("Missing return value from model file, " ++ fileName))
  | some d0 =>
      (stepEventsV2 d0 fileName opts models,
        .ok (assocSet models (nameForDefinition d0 fileName)
          (registeredModelV2 d0 fileName opts)))

/-- One iteration of the first loader's `forEach` body (src/index.js:27-51):
as `processFileV2` but with no class-method or instance-method attachment. -/
def processFileV1 (load : String → ModelFileFn) (opts : Options) (models : Registry)
    (fileName : String) : List Event × LoadResult :=
  match load fileName models opts.context with
  | none =>
      ([.invoke fileName models],
        .error ("Missing return value from model file, " ++ fileName))
  | some d0 =>
      (stepEventsV1 d0 fileName opts models,
        .ok (assocSet models (nameForDefinition d0 fileName)
          (registeredModelV1 d0 fileName opts)))

/-- The `forEach` loop of the second loader over the sorted file names,
threading the registry and accumulating the calls made; an error aborts the
pass and no registry is produced. -/
def goV2 (load : String → ModelFileFn) (opts : Options) :
    List String → Registry → List Event → List Event × LoadResult
  | [], models, evs => (evs, .ok models)
  | f :: rest, models, evs =>
      match processFileV2 load opts models f with
      | (stepEvs, .error e) => (evs ++ stepEvs, .error e)
      | (stepEvs, .ok models2) => goV2 load opts rest models2 (evs ++ stepEvs)

/-- The `forEach` loop of the first loader. -/
def goV1 (load : String → ModelFileFn) (opts : Options) :
    List String → Registry → List Event → List Event × LoadResult
  | [], models, evs => (evs, .ok models)
  | f :: rest, models, evs =>
      match processFileV1 load opts models f with
      | (stepEvs, .error e) => (evs ++ stepEvs, .error e)
      | (stepEvs, .ok models2) => goV1 load opts rest models2 (evs ++ stepEvs)

/-- The second `module.exports` (src/index.js:110-151): scan the directory,
process each model file in sorted order, return the registry (with the calls
made along the way). -/
def loadModelsV2 (files : List String) (load : String → ModelFileFn) (opts : Options) :
    List Event × LoadResult :=
  goV2 load opts (getModelFileNames files) [] []

/-- The first `module.exports` (src/index.js:23-54): as `loadModelsV2` but
with no class-method or instance-method attachment. -/
def loadModelsV1 (files : List String) (load : String → ModelFileFn) (opts : Options) :
    List Event × LoadResult :=
  goV1 load opts (getModelFileNames files) [] []

/-- Read a chain of properties, `undefined` as soon as one link is missing. -/
def pathGet (v : JsVal) : List String → JsVal
  | [] => v
  | k :: rest => pathGet (v.getField k) rest

/-- The file names the loader invoked, in invocation order, read off a trace. -/
def invokedFiles (evs : List Event) : List String :=
  evs.filterMap (fun e =>
    match e with
    | .invoke f _ => some f
    | _ => none)

/-- The registry snapshots passed to the invoked model files, read off a
trace. -/
def invokedRegistries (evs : List Event) : List Registry :=
  evs.filterMap (fun e =>
    match e with
    | .invoke _ models => some models
    | _ => none)

/-- The model names passed to the ORM's define operation, read off a trace. -/
def definedNames (evs : List Event) : List String :=
  evs.filterMap (fun e =>
    match e with
    | .define n _ _ => some n
    | _ => none)

theorem assocGet_nil {α : Type} (k : String) : assocGet ([] : List (String × α)) k = none := rfl

theorem assocGet_cons {α : Type} (k2 : String) (v2 : α) (rest : List (String × α))
    (k : String) :
    assocGet ((k2, v2) :: rest) k = if k2 = k then some v2 else assocGet rest k := by
  by_cases h : k2 = k <;> simp [assocGet, List.find?, h]

theorem assocGet_set_self {α : Type} (l : List (String × α)) (k : String) (v : α) :
    assocGet (assocSet l k v) k = some v := by
  induction l with
  | nil => simp [assocSet, assocGet_cons]
  | cons hd tl ih =>
      obtain ⟨k2, v2⟩ := hd
      by_cases h : k2 = k
      · simp [assocSet, h, assocGet_cons]
      · simp [assocSet, h, assocGet_cons, ih]

theorem assocGet_set_ne {α : Type} (l : List (String × α)) (k k2 : String) (v : α)
    (h : k2 ≠ k) : assocGet (assocSet l k v) k2 = assocGet l k2 := by
  have hne : k ≠ k2 := fun hh => h hh.symm
  induction l with
  | nil => simp [assocSet, assocGet_cons, hne]
  | cons hd tl ih =>
      obtain ⟨k3, v3⟩ := hd
      by_cases h3 : k3 = k
      · subst h3
        simp [assocSet, assocGet_cons, hne]
      · simp [assocSet, h3, assocGet_cons, ih]

theorem keys_assocSet {α : Type} (l : List (String × α)) (k k2 : String) (v : α) :
    k2 ∈ (assocSet l k v).map Prod.fst ↔ k2 = k ∨ k2 ∈ l.map Prod.fst := by
  induction l with
  | nil => simp [assocSet, eq_comm]
  | cons hd tl ih =>
      obtain ⟨k3, v3⟩ := hd
      by_cases h3 : k3 = k
      · subst h3
        simp [assocSet, eq_comm]
        try tauto
      · simp [assocSet, h3, ih]
        try tauto

theorem pathGet_undefined : ∀ (p : List String), pathGet .undefined p = .undefined
  | [] => rfl
  | _ :: rest => pathGet_undefined rest

theorem pathGet_cons (v : JsVal) (k : String) (p : List String) :
    pathGet v (k :: p) = pathGet (v.getField k) p := rfl

theorem getField_obj (fs : List (String × JsVal)) (k : String) :
    (JsVal.obj fs).getField k = (assocGet fs k).getD .undefined := rfl

mutual

/-- `defaultsDeep` never overwrites a value the target already holds: along
any property path whose target value is set (not `undefined`) and is not
itself an object, the merged result holds the target's value. -/
theorem defaultsDeep_preserves : ∀ (s t : JsVal) (p : List String),
    pathGet t p ≠ .undefined → (pathGet t p).isObj = false →
    pathGet (defaultsDeep t s) p = pathGet t p
  | .undefined, t, p => fun _ _ => by cases t <;> rfl
  | .null, t, p => fun _ _ => by cases t <;> rfl
  | .bool _, t, p => fun _ _ => by cases t <;> rfl
  | .num _, t, p => fun _ _ => by cases t <;> rfl
  | .str _, t, p => fun _ _ => by cases t <;> rfl
  | .obj sl, t, p => fun h1 h2 => by
      cases t with
      | obj tl => exact defaultsDeepFields_preserves sl tl p h1 h2
      | undefined => rfl
      | null => rfl
      | bool _ => rfl
      | num _ => rfl
      | str _ => rfl

/-- The per-field walk of `defaultsDeep` preserves set, non-object target
values along any property path. -/
theorem defaultsDeepFields_preserves :
    ∀ (sl : List (String × JsVal)) (tl : List (String × JsVal)) (p : List String),
      pathGet (.obj tl) p ≠ .undefined → (pathGet (.obj tl) p).isObj = false →
      pathGet (.obj (defaultsDeepFields tl sl)) p = pathGet (.obj tl) p
  | [], tl, p => fun _ _ => by rw [defaultsDeepFields]
  | (k, sv) :: rest, tl, p => fun h1 h2 => by
      rw [defaultsDeepFields]
      have hstep :
          pathGet (.obj (if (assocGet tl k).getD .undefined = .undefined then assocSet tl k sv
            else if ((assocGet tl k).getD .undefined).isObj && sv.isObj then
              assocSet tl k (defaultsDeep ((assocGet tl k).getD .undefined) sv)
            else tl)) p = pathGet (.obj tl) p := by
        match p with
        | [] => simp [pathGet, JsVal.isObj] at h2
        | k2 :: p2 =>
            rw [pathGet_cons, pathGet_cons]
            by_cases hk : k2 = k
            · subst hk
              by_cases hu : (assocGet tl k2).getD .undefined = .undefined
              · rw [pathGet_cons, getField_obj, hu, pathGet_undefined] at h1
                exact absurd rfl h1
              · rw [if_neg hu]
                by_cases hobj : ((assocGet tl k2).getD .undefined).isObj && sv.isObj
                · rw [if_pos hobj, getField_obj, getField_obj, assocGet_set_self]
                  rw [pathGet_cons, getField_obj] at h1 h2
                  simp only [Option.getD_some]
                  rcases Bool.and_eq_true .. |>.mp hobj with ⟨ht, hs⟩
                  exact defaultsDeep_preserves sv ((assocGet tl k2).getD .undefined) p2 h1 h2
                · rw [if_neg hobj]
            · by_cases hu : (assocGet tl k).getD .undefined = .undefined
              · rw [if_pos hu, getField_obj, getField_obj, assocGet_set_ne tl k k2 sv hk]
              · rw [if_neg hu]
                by_cases hobj : ((assocGet tl k).getD .undefined).isObj && sv.isObj
                · rw [if_pos hobj, getField_obj, getField_obj, assocGet_set_ne tl k k2 _ hk]
                · rw [if_neg hobj]
      rw [← hstep] at h1 h2
      rw [defaultsDeepFields_preserves rest _ p h1 h2, hstep]

end

theorem lexLeChars_cons (a b : Char) (as bs : List Char) :
    lexLe.lexLeChars (a :: as) (b :: bs) = true ↔
      a < b ∨ (a = b ∧ lexLe.lexLeChars as bs = true) := by
  simp only [lexLe.lexLeChars]
  by_cases h : a < b
  · simp [h]
  · by_cases h2 : a = b
    · simp [h, h2]
    · simp [h, h2]

theorem lexLeChars_total : ∀ (a b : List Char),
    lexLe.lexLeChars a b = true ∨ lexLe.lexLeChars b a = true
  | [], b => by left; cases b <;> rfl
  | _ :: _, [] => by right; rfl
  | a :: as, b :: bs => by
      rcases lt_trichotomy a b with h | h | h
      · exact Or.inl ((lexLeChars_cons a b as bs).mpr (Or.inl h))
      · subst h
        rcases lexLeChars_total as bs with ih | ih
        · exact Or.inl ((lexLeChars_cons a a as bs).mpr (Or.inr ⟨rfl, ih⟩))
        · exact Or.inr ((lexLeChars_cons a a bs as).mpr (Or.inr ⟨rfl, ih⟩))
      · exact Or.inr ((lexLeChars_cons b a bs as).mpr (Or.inl h))

theorem lexLeChars_trans : ∀ (a b c : List Char),
    lexLe.lexLeChars a b = true → lexLe.lexLeChars b c = true →
    lexLe.lexLeChars a c = true
  | [], _, c => fun _ _ => by cases c <;> rfl
  | _ :: _, [], _ => fun h1 _ => by exact absurd h1 (by simp [lexLe.lexLeChars])
  | _ :: _, _ :: _, [] => fun _ h2 => by exact absurd h2 (by simp [lexLe.lexLeChars])
  | a :: as, b :: bs, c :: cs => fun h1 h2 => by
      rcases (lexLeChars_cons a b as bs).mp h1 with hab | ⟨hab, h1t⟩
      · rcases (lexLeChars_cons b c bs cs).mp h2 with hbc | ⟨hbc, _⟩
        · exact (lexLeChars_cons a c as cs).mpr (Or.inl (lt_trans hab hbc))
        · exact (lexLeChars_cons a c as cs).mpr (Or.inl (hbc ▸ hab))
      · rcases (lexLeChars_cons b c bs cs).mp h2 with hbc | ⟨hbc, h2t⟩
        · exact (lexLeChars_cons a c as cs).mpr (Or.inl (hab ▸ hbc))
        · exact (lexLeChars_cons a c as cs).mpr
            (Or.inr ⟨hab.trans hbc, lexLeChars_trans as bs cs h1t h2t⟩)

instance : IsTotal String fileLe :=
  ⟨fun a b => lexLeChars_total a.data b.data⟩

instance : IsTrans String fileLe :=
  ⟨fun a b c => lexLeChars_trans a.data b.data c.data⟩

theorem setupDefinition_preserves (d : ModelDefinition) (modelName : String)
    (p : List String) (ht : d.params.truthy = true)
    (h1 : pathGet d.params p ≠ .undefined) (h2 : (pathGet d.params p).isObj = false) :
    pathGet (setupDefinition d modelName).params p = pathGet d.params p := by
  simp only [setupDefinition, ht, Bool.not_true, Bool.false_eq_true, if_false]
  exact defaultsDeep_preserves _ d.params p h1 h2

/-- C1: For every model name, the default table name is computed by
underscore-casing the model name, splitting the result on underscore,
pluralizing each segment independently, and rejoining the segments with
underscore; in particular the model name "UserAccount" yields the table name
"users_accounts". -/
theorem C1_default_table_name :
    (∀ modelName : String,
      defaultTableName modelName =
        strJoinUnderscore ((strSplitUnderscore (underscore modelName)).map pluralize)) ∧
    defaultTableName "UserAccount" = "users_accounts" :=
  ⟨fun _ => rfl, by decide⟩

/-- C3: For every definition that already has a params object, merging in the
default parameters never overwrites a key the definition already set, at any
nesting depth; in particular with `params = {tableName: "custom"}` the
resolved table name remains "custom"; and for a definition with no params
object, the loader assigns a fresh params object containing only the default
table name. -/
theorem C3_defaults_never_overwrite :
    (∀ (d : ModelDefinition) (modelName : String) (p : List String),
      d.params.truthy = true →
      pathGet d.params p ≠ .undefined → (pathGet d.params p).isObj = false →
      pathGet (setupDefinition d modelName).params p = pathGet d.params p) ∧
    (∀ (d : ModelDefinition) (modelName : String),
      d.params = .obj [("tableName", .str "custom")] →
      (setupDefinition d modelName).params.getField "tableName" = .str "custom") ∧
    (∀ (d : ModelDefinition) (modelName : String),
      d.params.truthy = false →
      (setupDefinition d modelName).params =
        .obj [("tableName", .str (defaultTableName modelName))]) := by
  refine ⟨fun d mn p ht h1 h2 => setupDefinition_preserves d mn p ht h1 h2, ?_, ?_⟩
  · intro d modelName hd
    have h := setupDefinition_preserves d modelName ["tableName"]
      (by rw [hd]; rfl) (by rw [hd]; decide) (by rw [hd]; decide)
    show pathGet (setupDefinition d modelName).params ["tableName"] = _
    rw [h, hd]
    rfl
  · intro d modelName ht
    simp only [setupDefinition, ht, Bool.not_false, if_true]

theorem filterMap_const_none {α β : Type} (l : List α) :
    l.filterMap (fun _ => (none : Option β)) = [] := by
  induction l with
  | nil => rfl
  | cons a l ih => simp [List.filterMap_cons, ih]

theorem invokedFiles_append (a b : List Event) :
    invokedFiles (a ++ b) = invokedFiles a ++ invokedFiles b := by
  simp [invokedFiles, List.filterMap_append]

theorem definedNames_append (a b : List Event) :
    definedNames (a ++ b) = definedNames a ++ definedNames b := by
  simp [definedNames, List.filterMap_append]

theorem invokedFiles_stepEventsV2 (d0 : ModelDefinition) (f : String) (opts : Options)
    (models : Registry) : invokedFiles (stepEventsV2 d0 f opts models) = [f] := by
  unfold stepEventsV2 invokedFiles
  split_ifs <;>
    simp [List.filterMap_append, List.filterMap_cons, List.filterMap_map,
      Function.comp, filterMap_const_none]

theorem definedNames_stepEventsV2 (d0 : ModelDefinition) (f : String) (opts : Options)
    (models : Registry) :
    definedNames (stepEventsV2 d0 f opts models) = [nameForDefinition d0 f] := by
  unfold stepEventsV2 definedNames
  split_ifs <;>
    simp [List.filterMap_append, List.filterMap_cons, List.filterMap_map,
      Function.comp, filterMap_const_none]

theorem invoke_mem_stepEventsV2 (d0 : ModelDefinition) (f : String) (opts : Options)
    (models : Registry) : Event.invoke f models ∈ stepEventsV2 d0 f opts models := by
  unfold stepEventsV2
  simp

theorem processFileV2_ok (load : String → ModelFileFn) (opts : Options)
    (models : Registry) (f : String) (stepEvs : List Event) (R : Registry)
    (h : processFileV2 load opts models f = (stepEvs, .ok R)) :
    ∃ d0, load f models opts.context = some d0 ∧
      stepEvs = stepEventsV2 d0 f opts models ∧
      R = assocSet models (nameForDefinition d0 f) (registeredModelV2 d0 f opts) := by
  unfold processFileV2 at h
  cases hl : load f models opts.context with
  | none => rw [hl] at h; exact absurd h (by simp)
  | some d0 =>
      rw [hl] at h
      injection h with h1 h2
      injection h2 with h2
      exact ⟨d0, rfl, h1.symm, h2.symm⟩

theorem processFileV2_failed (load : String → ModelFileFn) (opts : Options)
    (models : Registry) (f : String) (stepEvs : List Event) (e : String)
    (h : processFileV2 load opts models f = (stepEvs, .error e)) :
    load f models opts.context = none ∧ stepEvs = [.invoke f models] ∧
      e = "Missing return value from model file, " ++ f := by
  unfold processFileV2 at h
  cases hl : load f models opts.context with
  | none =>
      rw [hl] at h
      injection h with h1 h2
      injection h2 with h2
      exact ⟨rfl, h1.symm, h2.symm⟩
  | some d0 => rw [hl] at h; exact absurd h (by simp)

theorem goV2_append (load : String → ModelFileFn) (opts : Options) :
    ∀ (l1 l2 : List String) (models : Registry) (evs E : List Event) (R : Registry),
      goV2 load opts l1 models evs = (E, .ok R) →
      goV2 load opts (l1 ++ l2) models evs = goV2 load opts l2 R E
  | [], l2, models, evs, E, R => fun h => by
      rw [goV2] at h
      injection h with h1 h2
      injection h2 with h2
      subst h1; subst h2
      rfl
  | f :: rest, l2, models, evs, E, R => fun h => by
      rw [goV2] at h
      rcases hp : processFileV2 load opts models f with ⟨stepEvs, res⟩
      rw [hp] at h
      cases res with
      | error e => simp at h
      | ok models2 =>
          simp only at h
          show goV2 load opts (f :: (rest ++ l2)) models evs = _
          rw [goV2, hp]
          simp only
          exact goV2_append load opts rest l2 models2 (evs ++ stepEvs) E R h

theorem goV2_trace_extends (load : String → ModelFileFn) (opts : Options) :
    ∀ (l : List String) (models : Registry) (evs : List Event),
      ∃ tr, (goV2 load opts l models evs).1 = evs ++ tr
  | [], models, evs => ⟨[], by rw [goV2]; simp⟩
  | f :: rest, models, evs => by
      rw [goV2]
      rcases hp : processFileV2 load opts models f with ⟨stepEvs, res⟩
      cases res with
      | error e => exact ⟨stepEvs, by simp⟩
      | ok models2 =>
          obtain ⟨tr2, h2⟩ := goV2_trace_extends load opts rest models2 (evs ++ stepEvs)
          exact ⟨stepEvs ++ tr2, by simp only; rw [h2, List.append_assoc]⟩

theorem goV2_ok_spec (load : String → ModelFileFn) (opts : Options) :
    ∀ (l : List String) (models : Registry) (evs E : List Event) (R : Registry),
      goV2 load opts l models evs = (E, .ok R) →
      ∃ tr, E = evs ++ tr ∧ invokedFiles tr = l ∧
        (∀ k, k ∈ R.map Prod.fst ↔ k ∈ models.map Prod.fst ∨ k ∈ definedNames tr)
  | [], models, evs, E, R => fun h => by
      rw [goV2] at h
      injection h with h1 h2
      injection h2 with h2
      subst h1; subst h2
      exact ⟨[], by simp, rfl, fun k => by simp [invokedFiles, definedNames]⟩
  | f :: rest, models, evs, E, R => fun h => by
      rw [goV2] at h
      rcases hp : processFileV2 load opts models f with ⟨stepEvs, res⟩
      rw [hp] at h
      cases res with
      | error e => simp at h
      | ok models2 =>
          simp only at h
          obtain ⟨tr2, hE, hinv, hkeys⟩ :=
            goV2_ok_spec load opts rest models2 (evs ++ stepEvs) E R h
          obtain ⟨d0, _, hse, hm2⟩ := processFileV2_ok load opts models f stepEvs models2 hp
          refine ⟨stepEvs ++ tr2, by rw [hE, List.append_assoc], ?_, ?_⟩
          · rw [invokedFiles_append, hinv, hse, invokedFiles_stepEventsV2]
            rfl
          · intro k
            rw [hkeys k, hm2, keys_assocSet, definedNames_append, hse,
              definedNames_stepEventsV2]
            simp
            tauto

/-- A fixture: the minimal definition a well-formed model file can return. -/
def plainDef : ModelDefinition := { fields := [] }

/-- A fixture: every model file returns the minimal definition. -/
def plainLoad : String → ModelFileFn := fun _ => fun _ _ => some plainDef

/-- A fixture: "a.model.js" returns the minimal definition, every other model
file returns a falsy value. -/
def failLoad : String → ModelFileFn := fun f => fun _ _ =>
  if f = "a.model.js" then some plainDef else none

/-- `plainDef` as the loader resolves it for the file "a.model.js". -/
def aResolvedDef : ModelDefinition :=
  { name := none, fields := [], params := .obj [("tableName", .str "as")] }

/-- The model registered for "a.model.js" under `plainLoad` / `failLoad`. -/
def aModel : Model :=
  { modelName := "a", attributes := ["id"], tableName := "as", schema := .undefined,
    definition := some aResolvedDef }

/-- The calls made while processing "a.model.js" under `failLoad`. -/
def failPrefixEvents : List Event :=
  [.invoke "a.model.js" [], .define "a" [] (.obj [("tableName", .str "as")])]

/-- The registry after processing "a.model.js" under `failLoad`. -/
def failPrefixRegistry : Registry := [("a", aModel)]

/-- C2: For every directory, the loader processes exactly the files whose
names end with the suffix ".model.js", in lexicographically sorted order of
file name; each file's definition function is invoked with the registry
accumulated so far, so for files "a.model.js" and "b.model.js" the model
registered for "a" is present in the registry passed to "b"'s definition
function. -/
theorem C2_sorted_order_and_accumulation :
    (∀ (files : List String) (load : String → ModelFileFn) (opts : Options)
        (E : List Event) (R : Registry),
      loadModelsV2 files load opts = (E, .ok R) →
      invokedFiles E = getModelFileNames files ∧
      (getModelFileNames files).Perm
        (files.filter (fun f => strEndsWith f kModelFileNameSuffix)) ∧
      List.Sorted fileLe (invokedFiles E)) ∧
    (∀ (files : List String) (load : String → ModelFileFn) (opts : Options)
        (l1 : List String) (f : String) (l2 : List String) (E : List Event)
        (R : Registry),
      getModelFileNames files = l1 ++ f :: l2 →
      goV2 load opts l1 [] [] = (E, .ok R) →
      Event.invoke f R ∈ (loadModelsV2 files load opts).1) ∧
    (∀ (load : String → ModelFileFn) (opts : Options) (dA : ModelDefinition),
      (∀ reg ctx, load "a.model.js" reg ctx = some dA) → dA.name = none →
      ∃ r m, Event.invoke "b.model.js" r ∈
          (loadModelsV2 ["a.model.js", "b.model.js"] load opts).1 ∧
        assocGet r "a" = some m) := by
  have part2 : ∀ (files : List String) (load : String → ModelFileFn) (opts : Options)
      (l1 : List String) (f : String) (l2 : List String) (E : List Event)
      (R : Registry),
      getModelFileNames files = l1 ++ f :: l2 →
      goV2 load opts l1 [] [] = (E, .ok R) →
      Event.invoke f R ∈ (loadModelsV2 files load opts).1 := by
    intro files load opts l1 f l2 E R hsplit hpre
    unfold loadModelsV2
    rw [hsplit, goV2_append load opts l1 (f :: l2) [] [] E R hpre]
    simp only [goV2]
    rcases hp : processFileV2 load opts R f with ⟨stepEvs, res⟩
    have hmem : Event.invoke f R ∈ stepEvs := by
      cases res with
      | error e =>
          obtain ⟨_, hse, _⟩ := processFileV2_failed load opts R f stepEvs e hp
          rw [hse]
          simp
      | ok m2 =>
          obtain ⟨d0, _, hse, _⟩ := processFileV2_ok load opts R f stepEvs m2 hp
          rw [hse]
          exact invoke_mem_stepEventsV2 d0 f opts R
    cases res with
    | error e =>
        simp only
        exact List.mem_append.mpr (Or.inr hmem)
    | ok m2 =>
        simp only
        obtain ⟨tr2, htr⟩ := goV2_trace_extends load opts l2 m2 (E ++ stepEvs)
        rw [htr]
        exact List.mem_append.mpr (Or.inl (List.mem_append.mpr (Or.inr hmem)))
  refine ⟨?_, part2, ?_⟩
  · intro files load opts E R h
    unfold loadModelsV2 at h
    obtain ⟨tr, hE, hinv, _⟩ := goV2_ok_spec load opts (getModelFileNames files) [] [] E R h
    have hE2 : E = tr := by simpa using hE
    refine ⟨by rw [hE2, hinv], List.perm_insertionSort fileLe _, ?_⟩
    rw [hE2, hinv]
    exact List.sorted_insertionSort fileLe _
  · intro load opts dA hL hname
    have hnA : nameForDefinition dA "a.model.js" = "a" := by
      simp only [nameForDefinition, hname]
      decide
    have hp : processFileV2 load opts [] "a.model.js" =
        (stepEventsV2 dA "a.model.js" opts [],
          .ok (assocSet [] (nameForDefinition dA "a.model.js")
            (registeredModelV2 dA "a.model.js" opts))) := by
      unfold processFileV2
      rw [hL [] opts.context]
    have hgo : goV2 load opts ["a.model.js"] [] [] =
        ([] ++ stepEventsV2 dA "a.model.js" opts [],
          .ok (assocSet [] (nameForDefinition dA "a.model.js")
            (registeredModelV2 dA "a.model.js" opts))) := by
      simp only [goV2]
      rw [hp]
    have hmem := part2 ["a.model.js", "b.model.js"] load opts ["a.model.js"]
      "b.model.js" [] _ _ (by decide) hgo
    refine ⟨_, registeredModelV2 dA "a.model.js" opts, hmem, ?_⟩
    rw [hnA]
    exact assocGet_set_self [] "a" _

/-- C2 witness: a concrete two-file run in which "b.model.js" receives a
registry holding the model registered for "a". -/
theorem C2_witness :
    ∃ r m, Event.invoke "b.model.js" r ∈
        (loadModelsV2 ["a.model.js", "b.model.js"] plainLoad {}).1 ∧
      assocGet r "a" = some m :=
  C2_sorted_order_and_accumulation.2.2 plainLoad {} plainDef (fun _ _ => rfl) rfl

/-- C5: when some model file's invocation returns a falsy value, the whole
loader call fails with a dedicated error whose message names that file, and no
registry is returned as a successful result. -/
theorem C5_falsy_return_fails :
    ∀ (files : List String) (load : String → ModelFileFn) (opts : Options)
      (l1 : List String) (f : String) (l2 : List String) (E : List Event)
      (R : Registry),
      getModelFileNames files = l1 ++ f :: l2 →
      goV2 load opts l1 [] [] = (E, .ok R) →
      load f R opts.context = none →
      loadModelsV2 files load opts =
        (E ++ [.invoke f R],
          .error ("Missing return value from model file, " ++ f)) := by
  intro files load opts l1 f l2 E R hsplit hpre hnone
  unfold loadModelsV2
  rw [hsplit, goV2_append load opts l1 (f :: l2) [] [] E R hpre]
  simp only [goV2]
  have hp : processFileV2 load opts R f =
      ([.invoke f R], .error ("Missing return value from model file, " ++ f)) := by
    unfold processFileV2
    rw [hnone]
  rw [hp]

/-- C5 witness: the concrete run in which "b.model.js" returns a falsy value
after "a.model.js" loaded. -/
theorem C5_witness :
    loadModelsV2 ["a.model.js", "b.model.js"] failLoad {} =
      (failPrefixEvents ++ [.invoke "b.model.js" failPrefixRegistry],
        .error ("Missing return value from model file, " ++ "b.model.js")) :=
  C5_falsy_return_fails ["a.model.js", "b.model.js"] failLoad {} ["a.model.js"]
    "b.model.js" [] failPrefixEvents failPrefixRegistry (by decide) (by decide)
    (by decide)

theorem getField_setField_obj (fs : List (String × JsVal)) (k : String) (v : JsVal) :
    ((JsVal.obj fs).setField k v).getField k = v := by
  simp [JsVal.setField, JsVal.getField, assocGet_set_self]

/-- A fixture: a model file whose definition explicitly sets the falsy schema
value `""`. -/
def emptySchemaLoad : String → ModelFileFn := fun _ => fun _ _ =>
  some { fields := [], params := .obj [("schema", .str "")] }

/-- C4 counterexample: a definition that sets `params.schema` to the empty
string (a value the definition supplied) together with the loader option
`schema: "public"` yields the model schema `"public"`, not the definition's
value: the global schema does override a falsy definition-supplied schema, so
the claim's "for every value the definition sets" fails. -/
theorem C4_counterexample :
    (match (loadModelsV2 ["s.model.js"] emptySchemaLoad { schema := .str "public" }).2 with
      | .ok reg => (assocGet reg "s").map (fun m => m.schema)
      | .error _ => none) = some (.str "public") ∧
    JsVal.str "public" ≠ JsVal.str "" := by decide

/-- C4 amended: the global schema is assigned exactly when the definition's
`params.schema` is falsy (absent, undefined, null, false, 0 or the empty
string) and the loader's schema option is truthy; a definition whose
`params.schema` is truthy keeps it, and a falsy loader option changes
nothing. -/
theorem C4_schema_fallback :
    (∀ (params optSchema : JsVal),
      (params.getField "schema").truthy = true →
      (applyGlobalSchema params optSchema).getField "schema" =
        params.getField "schema") ∧
    (∀ (params optSchema : JsVal),
      params.isObj = true → (params.getField "schema").truthy = false →
      optSchema.truthy = true →
      (applyGlobalSchema params optSchema).getField "schema" = optSchema) ∧
    (∀ (params optSchema : JsVal),
      optSchema.truthy = false → applyGlobalSchema params optSchema = params) := by
  refine ⟨?_, ?_, ?_⟩
  · intro params optSchema h
    simp [applyGlobalSchema, h]
  · intro params optSchema hobj h hopt
    obtain ⟨fs, rfl⟩ : ∃ fs, params = .obj fs := by
      cases params <;> first | exact ⟨_, rfl⟩ | simp [JsVal.isObj] at hobj
    simp [applyGlobalSchema, h, hopt, getField_setField_obj]
  · intro params optSchema h
    simp [applyGlobalSchema, h]

/-- C4 witness: a definition with no schema plus the loader option
`schema: "public"` resolves to the schema `"public"`. -/
theorem C4_witness :
    (applyGlobalSchema (.obj []) (.str "public")).getField "schema" =
      .str "public" :=
  C4_schema_fallback.2.1 (.obj []) (.str "public") rfl rfl rfl

theorem modelAfterPk_modelName (d0 : ModelDefinition) (f : String) (opts : Options) :
    (modelAfterPk d0 f opts).modelName = nameForDefinition d0 f := by
  unfold modelAfterPk definedModel
  split_ifs <;> simp [ormDefine, Model.removeAttr]

/-- C6: a model whose resolved parameters set the no-primary-key flag ends up
registered without the engine's default primary-key attribute "id", and the
loader issues the removal call; a model without the flag is not subject to any
attribute removal. -/
theorem C6_no_primary_key :
    ∀ (load : String → ModelFileFn) (opts : Options) (models : Registry)
      (f : String) (d0 : ModelDefinition) (stepEvs : List Event) (R : Registry),
      load f models opts.context = some d0 →
      processFileV2 load opts models f = (stepEvs, .ok R) →
      (((resolvedDefinition d0 f opts).params.getField "noPrimaryKey").truthy = true →
        ∃ m, assocGet R (nameForDefinition d0 f) = some m ∧
          "id" ∉ m.attributes ∧
          Event.removeAttr (nameForDefinition d0 f) "id" ∈ stepEvs) ∧
      (((resolvedDefinition d0 f opts).params.getField "noPrimaryKey").truthy = false →
        (∀ n a, Event.removeAttr n a ∉ stepEvs) ∧
        (registeredModelV2 d0 f opts).attributes =
          (definedModel d0 f opts).attributes) := by
  intro load opts models f d0 stepEvs R hl hp
  obtain ⟨d0x, hlx, hse, hR⟩ := processFileV2_ok load opts models f stepEvs R hp
  rw [hl] at hlx
  injection hlx with hd
  subst hd
  constructor
  · intro hflag
    refine ⟨registeredModelV2 d0 f opts, ?_, ?_, ?_⟩
    · rw [hR]
      exact assocGet_set_self models _ _
    · show "id" ∉ (modelAfterPk d0 f opts).attributes
      unfold modelAfterPk
      rw [hflag]
      simp [Model.removeAttr, List.mem_filter]
    · rw [hse]
      simp [stepEventsV2, hflag]
  · intro hflag
    constructor
    · intro n a
      rw [hse]
      simp [stepEventsV2, hflag]
    · show (modelAfterPk d0 f opts).attributes = _
      unfold modelAfterPk
      rw [hflag]
      simp

/-- A fixture: a definition whose resolved parameters request no primary
key. -/
def pkDef : ModelDefinition :=
  { fields := [("x", .str "INT")], params := .obj [("noPrimaryKey", .bool true)] }

/-- A fixture: every model file returns `pkDef`. -/
def pkLoad : String → ModelFileFn := fun _ => fun _ _ => some pkDef

/-- C6 witness: the concrete no-primary-key definition ends up registered
without the "id" attribute and with the removal call issued. -/
theorem C6_witness :
    ∃ m, assocGet (assocSet [] (nameForDefinition pkDef "p.model.js")
        (registeredModelV2 pkDef "p.model.js" {}))
        (nameForDefinition pkDef "p.model.js") = some m ∧
      "id" ∉ m.attributes ∧
      Event.removeAttr (nameForDefinition pkDef "p.model.js") "id" ∈
        stepEventsV2 pkDef "p.model.js" {} [] :=
  (C6_no_primary_key pkLoad {} [] "p.model.js" pkDef _ _ rfl rfl).1 (by decide)

/-- C7: the resolved model name is the definition's explicit name field when
present, else the file's base name with ".model.js" stripped; the resolved
name is the registry key, the registered model's name and the name passed to
the ORM's define call. -/
theorem C7_resolved_name :
    (∀ (d : ModelDefinition) (f : String) (n : String),
      d.name = some n → nameForDefinition d f = n) ∧
    (∀ (d : ModelDefinition) (f : String),
      d.name = none → strEndsWith f kModelFileNameSuffix = true →
      nameForDefinition d f = strDropRight f kModelFileNameSuffix.data.length) ∧
    (∀ (load : String → ModelFileFn) (opts : Options) (models : Registry)
        (f : String) (d0 : ModelDefinition) (stepEvs : List Event) (R : Registry),
      load f models opts.context = some d0 →
      processFileV2 load opts models f = (stepEvs, .ok R) →
      R = assocSet models (nameForDefinition d0 f) (registeredModelV2 d0 f opts) ∧
      (registeredModelV2 d0 f opts).modelName = nameForDefinition d0 f ∧
      definedNames stepEvs = [nameForDefinition d0 f]) := by
  refine ⟨?_, ?_, ?_⟩
  · intro d f n h
    simp [nameForDefinition, h]
  · intro d f hn hends
    simp [nameForDefinition, hn, nameFromFileName, hends]
  · intro load opts models f d0 stepEvs R hl hp
    obtain ⟨d0x, hlx, hse, hR⟩ := processFileV2_ok load opts models f stepEvs R hp
    rw [hl] at hlx
    injection hlx with hd
    subst hd
    refine ⟨hR, ?_, ?_⟩
    · show (modelAfterPk d0 f opts).modelName = _
      exact modelAfterPk_modelName d0 f opts
    · rw [hse]
      exact definedNames_stepEventsV2 d0 f opts models

/-- C7 witness: the name resolution at concrete inputs, with and without an
explicit name field. -/
theorem C7_witness :
    nameForDefinition { fields := [] } "user.model.js" = "user" ∧
    nameForDefinition { name := some "Custom", fields := [] } "user.model.js" =
      "Custom" :=
  ⟨C7_resolved_name.2.1 { fields := [] } "user.model.js" rfl (by decide),
   C7_resolved_name.1 { name := some "Custom", fields := [] } "user.model.js"
     "Custom" rfl⟩

/-- A fixture: the definition "a.model.js" returns under `dupLoad`. -/
def dupDefA : ModelDefinition := { name := some "m", fields := [("fa", .str "A")] }

/-- A fixture: the definition "b.model.js" returns under `dupLoad`. -/
def dupDefB : ModelDefinition := { name := some "m", fields := [("fb", .str "B")] }

/-- A fixture: two model files that both resolve to the model name "m". -/
def dupLoad : String → ModelFileFn := fun f => fun _ _ =>
  if f = "a.model.js" then some dupDefA else some dupDefB

/-- `dupDefA` as the loader resolves it. -/
def dupResolvedA : ModelDefinition :=
  { name := some "m", fields := [("fa", .str "A")],
    params := .obj [("tableName", .str "ms")] }

/-- `dupDefB` as the loader resolves it. -/
def dupResolvedB : ModelDefinition :=
  { name := some "m", fields := [("fb", .str "B")],
    params := .obj [("tableName", .str "ms")] }

/-- The model "a.model.js" registers under `dupLoad`. -/
def dupModelA : Model :=
  { modelName := "m", attributes := ["fa", "id"], tableName := "ms",
    schema := .undefined, definition := some dupResolvedA }

/-- The model "b.model.js" registers under `dupLoad`, replacing `dupModelA`. -/
def dupModelB : Model :=
  { modelName := "m", attributes := ["fb", "id"], tableName := "ms",
    schema := .undefined, definition := some dupResolvedB }

/-- The trace of the colliding two-file run under `dupLoad`. -/
def dupEvents : List Event :=
  [.invoke "a.model.js" [],
   .define "m" [("fa", .str "A")] (.obj [("tableName", .str "ms")]),
   .invoke "b.model.js" [("m", dupModelA)],
   .define "m" [("fb", .str "B")] (.obj [("tableName", .str "ms")])]

/-- The registry of the colliding two-file run under `dupLoad`. -/
def dupRegistry : Registry := [("m", dupModelB)]

/-- C8: on a successful run the registry's key set equals the set of resolved
model names passed to define; assigning an existing key replaces its value
(last write wins); and on a concrete name collision the run succeeds silently
with the later file's model under the shared key. -/
theorem C8_registry_keys :
    (∀ (files : List String) (load : String → ModelFileFn) (opts : Options)
        (E : List Event) (R : Registry),
      loadModelsV2 files load opts = (E, .ok R) →
      ∀ k, k ∈ R.map Prod.fst ↔ k ∈ definedNames E) ∧
    (∀ (models : Registry) (k : String) (m : Model),
      assocGet (assocSet models k m) k = some m) ∧
    ((loadModelsV2 ["a.model.js", "b.model.js"] dupLoad {}).2 = .ok dupRegistry ∧
      dupRegistry.map Prod.fst = ["m"] ∧
      assocGet dupRegistry "m" = some dupModelB ∧
      dupModelB.definition.map (fun d => d.fields) = some [("fb", .str "B")]) := by
  refine ⟨?_, fun models k m => assocGet_set_self models k m, by decide⟩
  intro files load opts E R h k
  unfold loadModelsV2 at h
  obtain ⟨tr, hE, _, hkeys⟩ := goV2_ok_spec load opts (getModelFileNames files) [] [] E R h
  have hE2 : E = tr := by simpa using hE
  rw [hE2, hkeys k]
  simp

/-- C8 witness: the key-set equation applied to the concrete colliding run. -/
theorem C8_witness :
    ("m" ∈ dupRegistry.map Prod.fst ↔ "m" ∈ definedNames dupEvents) :=
  C8_registry_keys.1 ["a.model.js", "b.model.js"] dupLoad {} dupEvents dupRegistry
    (by decide) "m"

theorem foldl_assocSet_get_of_notMem {α : Type} :
    ∀ (l init : List (String × α)) (k : String),
      k ∉ l.map Prod.fst →
      assocGet (l.foldl (fun acc p => assocSet acc p.1 p.2) init) k =
        assocGet init k
  | [], _, _ => fun _ => rfl
  | q :: rest, init, k => fun h => by
      have h1 : k ∉ rest.map Prod.fst := fun hm => h (by simp [hm])
      have h2 : k ≠ q.1 := fun he => h (by simp [he])
      simp only [List.foldl_cons]
      rw [foldl_assocSet_get_of_notMem rest _ k h1, assocGet_set_ne _ _ _ _ h2]

theorem foldl_assocSet_get {α : Type} :
    ∀ (l init : List (String × α)),
      (l.map Prod.fst).Nodup →
      ∀ p ∈ l, assocGet (l.foldl (fun acc q => assocSet acc q.1 q.2) init) p.1 =
        some p.2
  | [], _ => fun _ p hp => absurd hp (List.not_mem_nil p)
  | q :: rest, init => fun hnd p hp => by
      rw [List.map_cons] at hnd
      have h1 : q.1 ∉ rest.map Prod.fst := (List.nodup_cons.mp hnd).1
      have h2 : (rest.map Prod.fst).Nodup := (List.nodup_cons.mp hnd).2
      simp only [List.foldl_cons]
      rcases List.mem_cons.mp hp with rfl | hp2
      · rw [foldl_assocSet_get_of_notMem rest _ _ h1, assocGet_set_self]
      · exact foldl_assocSet_get rest _ h2 p hp2

theorem resolvedDefinition_classMethods (d0 : ModelDefinition) (f : String)
    (opts : Options) :
    (resolvedDefinition d0 f opts).classMethods = d0.classMethods := by
  simp only [resolvedDefinition, setupDefinition]
  split_ifs <;> rfl

theorem resolvedDefinition_instanceMethods (d0 : ModelDefinition) (f : String)
    (opts : Options) :
    (resolvedDefinition d0 f opts).instanceMethods = d0.instanceMethods := by
  simp only [resolvedDefinition, setupDefinition]
  split_ifs <;> rfl

theorem modelAfterPk_classProps (d0 : ModelDefinition) (f : String) (opts : Options) :
    (modelAfterPk d0 f opts).classProps = [] := by
  unfold modelAfterPk definedModel
  split_ifs <;> simp [ormDefine, Model.removeAttr]

theorem modelAfterPk_protoProps (d0 : ModelDefinition) (f : String) (opts : Options) :
    (modelAfterPk d0 f opts).protoProps = [] := by
  unfold modelAfterPk definedModel
  split_ifs <;> simp [ormDefine, Model.removeAttr]

/-- C9: class-level and instance-level method maps are attached by name onto
the registered model object and its instance prototype, and the properties the
ORM set on the model (name, attributes, table name, schema) are left in
place. -/
theorem C9_method_attachment :
    ∀ (load : String → ModelFileFn) (opts : Options) (models : Registry)
      (f : String) (d0 : ModelDefinition) (cms ims : List (String × Nat))
      (stepEvs : List Event) (R : Registry),
      load f models opts.context = some d0 →
      d0.classMethods = some cms → d0.instanceMethods = some ims →
      (cms.map Prod.fst).Nodup → (ims.map Prod.fst).Nodup →
      processFileV2 load opts models f = (stepEvs, .ok R) →
      ∃ m, assocGet R (nameForDefinition d0 f) = some m ∧
        (∀ p ∈ cms, assocGet m.classProps p.1 = some p.2) ∧
        (∀ p ∈ ims, assocGet m.protoProps p.1 = some p.2) ∧
        m.modelName = (modelAfterPk d0 f opts).modelName ∧
        m.attributes = (modelAfterPk d0 f opts).attributes ∧
        m.tableName = (modelAfterPk d0 f opts).tableName ∧
        m.schema = (modelAfterPk d0 f opts).schema := by
  intro load opts models f d0 cms ims stepEvs R hl hc hi hndc hndi hp
  obtain ⟨d0x, hlx, _, hR⟩ := processFileV2_ok load opts models f stepEvs R hp
  rw [hl] at hlx
  injection hlx with hd
  subst hd
  refine ⟨registeredModelV2 d0 f opts, ?_, ?_, ?_, rfl, rfl, rfl, rfl⟩
  · rw [hR]
    exact assocGet_set_self models _ _
  · intro p hpmem
    show assocGet (((resolvedDefinition d0 f opts).classMethods.getD []).foldl
      (fun acc (q : String × Nat) => assocSet acc q.1 q.2)
      (modelAfterPk d0 f opts).classProps) p.1 = some p.2
    rw [resolvedDefinition_classMethods, hc, modelAfterPk_classProps]
    exact foldl_assocSet_get cms [] hndc p hpmem
  · intro p hpmem
    show assocGet (((resolvedDefinition d0 f opts).instanceMethods.getD []).foldl
      (fun acc (q : String × Nat) => assocSet acc q.1 q.2)
      (modelAfterPk d0 f opts).protoProps) p.1 = some p.2
    rw [resolvedDefinition_instanceMethods, hi, modelAfterPk_protoProps]
    exact foldl_assocSet_get ims [] hndi p hpmem

/-- A fixture: a definition supplying one class-level and one instance-level
method. -/
def methodsDef : ModelDefinition :=
  { fields := [], classMethods := some [("touch", 1)],
    instanceMethods := some [("ping", 2)] }

/-- A fixture: every model file returns `methodsDef`. -/
def methodsLoad : String → ModelFileFn := fun _ => fun _ _ => some methodsDef

/-- C9 witness: the concrete definition's methods end up attached on the
registered model, the ORM-set properties untouched. -/
theorem C9_witness :
    ∃ m, assocGet (assocSet [] (nameForDefinition methodsDef "c.model.js")
        (registeredModelV2 methodsDef "c.model.js" {}))
        (nameForDefinition methodsDef "c.model.js") = some m ∧
      (∀ p ∈ [("touch", 1)], assocGet m.classProps p.1 = some p.2) ∧
      (∀ p ∈ [("ping", 2)], assocGet m.protoProps p.1 = some p.2) ∧
      m.modelName = (modelAfterPk methodsDef "c.model.js" {}).modelName ∧
      m.attributes = (modelAfterPk methodsDef "c.model.js" {}).attributes ∧
      m.tableName = (modelAfterPk methodsDef "c.model.js" {}).tableName ∧
      m.schema = (modelAfterPk methodsDef "c.model.js" {}).schema :=
  C9_method_attachment methodsLoad {} [] "c.model.js" methodsDef [("touch", 1)]
    [("ping", 2)] _ _ rfl rfl rfl (by decide) (by decide) rfl

/-- C10 counterexample: on a definition that supplies class methods the two
consecutive loader versions produce different results (the second attaches the
methods and emits the attachment calls, the first does not), so the two
definitions are not equivalent. -/
theorem C10_counterexample :
    loadModelsV1 ["c.model.js"] methodsLoad {} ≠
      loadModelsV2 ["c.model.js"] methodsLoad {} := by decide

theorem processFile_eq_no_methods (load : String → ModelFileFn) (opts : Options)
    (models : Registry) (f : String)
    (H : ∀ f2 models2 ctx d, load f2 models2 ctx = some d →
      d.classMethods = none ∧ d.instanceMethods = none) :
    processFileV1 load opts models f = processFileV2 load opts models f := by
  unfold processFileV1 processFileV2
  cases hl : load f models opts.context with
  | none => rfl
  | some d0 =>
      obtain ⟨hc, hi⟩ := H f models opts.context d0 hl
      have hc2 : (resolvedDefinition d0 f opts).classMethods = none := by
        rw [resolvedDefinition_classMethods, hc]
      have hi2 : (resolvedDefinition d0 f opts).instanceMethods = none := by
        rw [resolvedDefinition_instanceMethods, hi]
      have hm : registeredModelV1 d0 f opts = registeredModelV2 d0 f opts := by
        simp [registeredModelV1, registeredModelV2, hc2, hi2]
      have he : stepEventsV1 d0 f opts models = stepEventsV2 d0 f opts models := by
        simp [stepEventsV1, stepEventsV2, hc2, hi2, hm]
      show (stepEventsV1 d0 f opts models,
          LoadResult.ok (assocSet models (nameForDefinition d0 f)
            (registeredModelV1 d0 f opts))) =
        (stepEventsV2 d0 f opts models,
          LoadResult.ok (assocSet models (nameForDefinition d0 f)
            (registeredModelV2 d0 f opts)))
      rw [he, hm]

theorem go_eq_no_methods (load : String → ModelFileFn) (opts : Options)
    (H : ∀ f2 models2 ctx d, load f2 models2 ctx = some d →
      d.classMethods = none ∧ d.instanceMethods = none) :
    ∀ (l : List String) (models : Registry) (evs : List Event),
      goV1 load opts l models evs = goV2 load opts l models evs
  | [], _, _ => rfl
  | f :: rest, models, evs => by
      rw [goV1, goV2, processFile_eq_no_methods load opts models f H]
      rcases hp : processFileV2 load opts models f with ⟨stepEvs, res⟩
      cases res with
      | error e => rfl
      | ok m2 =>
          simp only
          exact go_eq_no_methods load opts H rest m2 (evs ++ stepEvs)

/-- C10 amended: the two consecutive loader definitions agree on every run in
which no loaded definition supplies class-level or instance-level methods;
when a definition does supply them, the second version additionally attaches
them to the registered model and makes the attachment calls while the first
ignores them. -/
theorem C10_versions_agree_without_methods :
    ∀ (files : List String) (load : String → ModelFileFn) (opts : Options),
      (∀ f models ctx d, load f models ctx = some d →
        d.classMethods = none ∧ d.instanceMethods = none) →
      loadModelsV1 files load opts = loadModelsV2 files load opts := by
  intro files load opts H
  unfold loadModelsV1 loadModelsV2
  exact go_eq_no_methods load opts H (getModelFileNames files) [] []

/-- C10 witness: the two loader versions agree on a concrete run whose
definitions carry no method maps. -/
theorem C10_witness :
    loadModelsV1 ["a.model.js", "b.model.js"] plainLoad {} =
      loadModelsV2 ["a.model.js", "b.model.js"] plainLoad {} :=
  C10_versions_agree_without_methods ["a.model.js", "b.model.js"] plainLoad {}
    (fun _ _ _ d h => by
      cases Option.some.inj h
      exact ⟨rfl, rfl⟩)
